import Mathlib

/-!
Verification development for the Bluetooth mesh chat server
(`server.py`, class `BluetoothMeshChatServer`).

The Python code is shallowly embedded: Python `dict`s (which preserve
insertion order and raise `KeyError` on a missing subscript) are modelled
as association lists `List (String × α)` with an insertion-order-preserving
update `aset` and a first-match lookup `alookup`; Python exceptions
(`KeyError` from a missing dict key, `ValueError` from `min` on an empty
sequence) are modelled with `Except Unit`; `time.time ()` values are passed
in explicitly as `Nat` time stamps; the `uuid` generator is passed in
explicitly as the fresh id parameter of each operation that creates a
message.  Python truthiness of `Optional[str]` values (`if next_hop:`,
`if best_neighbor:`) treats both `None` and the empty string as false and
is modelled as such.
-/

namespace Mesh

/-- First-match lookup in an association list, like a Python dict read. -/
def alookup {α : Type} : List (String × α) → String → Option α
  | [], _ => none
  | (k', v) :: rest, k => if k' = k then some v else alookup rest k

/-- Insertion-order-preserving write, like a Python dict item assignment:
an existing key keeps its position, a new key is appended at the end. -/
def aset {α : Type} : List (String × α) → String → α → List (String × α)
  | [], k, v => [(k, v)]
  | (k', v') :: rest, k, v =>
      if k' = k then (k, v) :: rest else (k', v') :: aset rest k v

/-- `MessageType` enum of `server.py`. -/
inductive MessageType where
  | text
  | system
  | route_update
  | peer_discovery
  | ack
  deriving Repr, DecidableEq

/-- The `Message` dataclass of `server.py`.  `ttl` is a Python `int`
(defaulting to 10), `route` the list of peer ids traversed so far. -/
structure Message where
  id : String
  sender_id : String
  recipient_id : Option String
  message_type : MessageType
  content : String
  timestamp : Nat
  ttl : Int
  route : List String
  deriving Repr, DecidableEq

/-- The `Peer` dataclass of `server.py`.  The `neighbors` set is modelled
as a duplicate-free list of peer ids. -/
structure Peer where
  id : String
  name : String
  address : String
  last_seen : Nat
  is_online : Bool
  neighbors : List String
  deriving Repr, DecidableEq

/-- Candidate map of one routing-table entry: next hop to integer cost. -/
abbrev CandMap := List (String × Nat)

/-- The routing table: destination id to candidate map. -/
abbrev RoutingTable := List (String × CandMap)

/-- The mutable state of a `BluetoothMeshChatServer` instance:
`peers`, `messages`, `routing_table`, the asyncio queue (as a FIFO list)
and the `running` flag. -/
structure ServerState where
  server_id : String
  server_name : String
  peers : List (String × Peer)
  messages : List (String × Message)
  routing_table : RoutingTable
  message_queue : List Message
  running : Bool
  deriving Repr, DecidableEq

/-- `__init__`: the server starts with only its own peer record
(neighbors empty, online, address "localhost") and empty tables. -/
def initState (server_id server_name : String) (now : Nat) : ServerState :=
  { server_id := server_id
    server_name := server_name
    peers := [(server_id,
      { id := server_id, name := server_name, address := "localhost"
        last_seen := now, is_online := true, neighbors := [] })]
    messages := []
    routing_table := []
    message_queue := []
    running := false }

/-- One comparison step of Python `min (items, key = lambda x: x [1])`:
keep the current best on ties (Python `min` is stable). -/
def minStep (best p : String × Nat) : String × Nat :=
  if p.2 < best.2 then p else best

/-- Python `min (items, key = lambda x: x [1])` on a candidate map:
the first entry attaining the minimal cost, `none` on an empty map
(where Python raises `ValueError`). -/
def minByCost : CandMap → Option (String × Nat)
  | [] => none
  | c :: rest => some (rest.foldl minStep c)

/-- `_get_next_hop`: if the destination has a routing-table entry, return
the candidate of minimal cost — `min` raises `ValueError` (modelled as
`.error ()`) when the candidate map is empty; if the destination has no
entry, return `None` (`.ok none`). -/
def getNextHop (rt : RoutingTable) (destination : String) : Except Unit (Option String) :=
  match alookup rt destination with
  | some candidates =>
      match minByCost candidates with
      | some best => .ok (some best.1)
      | none => .error ()
  | none => .ok none

/-- `_forward_message` route mutation: append the server id to the route
when the server id is not yet a member of the route (the code tests
membership, `self.server_id not in message.route`). -/
def forward_message (server_id : String) (m : Message) : Message :=
  if server_id ∈ m.route then m else { m with route := m.route ++ [server_id] }

/-- `_update_routing_table`, step 1: `for peer_id in self.peers: if
peer_id != self.server_id: self.routing_table [peer_id] = \x7b\x7d` — reset the
(pre-existing) table, giving every known peer other than the server an
empty candidate map. -/
def initRT (server_id : String) : List String → RoutingTable → RoutingTable
  | [], rt => rt
  | pid :: rest, rt =>
      if pid = server_id then initRT server_id rest rt
      else initRT server_id rest (aset rt pid [])

/-- `_update_routing_table`, step 2: every neighbor of the server that is
online gets the candidate entry `\x7bneighbor_id: 1\x7d`.  `self.peers
[neighbor_id]` and `self.routing_table [neighbor_id]` are dict subscripts
and raise `KeyError` (`.error ()`) on a missing key. -/
def addNeighborRoutes (peers : List (String × Peer)) :
    List String → RoutingTable → Except Unit RoutingTable
  | [], rt => .ok rt
  | nid :: rest, rt =>
      match alookup peers nid with
      | none => .error ()
      | some p =>
          if p.is_online then
            match alookup rt nid with
            | none => .error ()
            | some inner => addNeighborRoutes peers rest (aset rt nid (aset inner nid 1))
          else addNeighborRoutes peers rest rt

/-- `_update_routing_table`, step 3, inner loop: scan the server's
neighbors carrying `(min_cost, best_neighbor)` (the accumulator, `none`
standing for `(inf, None)`); an online neighbor costs the constant 2 and
replaces the accumulator only when `cost < min_cost`.  `self.peers
[neighbor_id]` raises `KeyError` on an unknown neighbor id. -/
def relayFold (peers : List (String × Peer)) (acc : Option (String × Nat)) :
    List String → Except Unit (Option (String × Nat))
  | [] => .ok acc
  | nid :: rest =>
      match alookup peers nid with
      | none => .error ()
      | some p =>
          if p.is_online then
            match acc with
            | none => relayFold peers (some (nid, 2)) rest
            | some best =>
                if 2 < best.2 then relayFold peers (some (nid, 2)) rest
                else relayFold peers acc rest
          else relayFold peers acc rest

/-- `_update_routing_table`, step 3, outer loop: every known peer that is
neither the server nor one of the server's neighbors gets the entry
`\x7bbest_neighbor: min_cost\x7d` when a relay was found (`if best_neighbor:` is
Python truthiness, so an empty-string relay id writes nothing). -/
def addRelayRoutes (peers : List (String × Peer)) (server_id : String)
    (nbrs : List String) : List String → RoutingTable → Except Unit RoutingTable
  | [], rt => .ok rt
  | pid :: rest, rt =>
      if pid ≠ server_id ∧ pid ∉ nbrs then
        match relayFold peers none nbrs with
        | .error e => .error e
        | .ok none => addRelayRoutes peers server_id nbrs rest rt
        | .ok (some best) =>
            if best.1 = "" then addRelayRoutes peers server_id nbrs rest rt
            else
              match alookup rt pid with
              | none => .error ()
              | some inner =>
                  addRelayRoutes peers server_id nbrs rest
                    (aset rt pid (aset inner best.1 best.2))
      else addRelayRoutes peers server_id nbrs rest rt

/-- `_update_routing_table` as a table transformer: reset, add cost-1
entries for the online direct neighbors, then cost-2 relay entries.
`self.peers [self.server_id]` raises `KeyError` when the server record is
missing.  (On the Python error path the in-place mutations performed so
far survive; no claim observes that partial state, so the model simply
returns the error.) -/
def computeRoutingTable (peers : List (String × Peer)) (server_id : String)
    (rt : RoutingTable) : Except Unit RoutingTable :=
  match alookup peers server_id with
  | none => .error ()
  | some sp =>
      let rt1 := initRT server_id (peers.map Prod.fst) rt
      match addNeighborRoutes peers sp.neighbors rt1 with
      | .error e => .error e
      | .ok rt2 => addRelayRoutes peers server_id sp.neighbors (peers.map Prod.fst) rt2

/-- `_update_routing_table` on the server state: only `routing_table`
changes. -/
def updateRoutingTable (s : ServerState) : Except Unit ServerState :=
  match computeRoutingTable s.peers s.server_id s.routing_table with
  | .error e => .error e
  | .ok rt => .ok { s with routing_table := rt }

/-- Stand-in for `json.dumps (\x7b"peers": [...]\x7d)` in
`_broadcast_peer_discovery`: a deterministic serialization of the peer
snapshot.  No claim inspects this payload. -/
def peersSnapshot (peers : List (String × Peer)) : String :=
  String.intercalate "," (peers.map Prod.fst)

/-- `_broadcast_peer_discovery`: build a peer-discovery message (fresh id
`msgId`, no recipient, TTL left at its default 10, route `[server_id]`)
and put it on the message queue.  The message store is not touched. -/
def broadcast_peer_discovery (s : ServerState) (msgId : String) (now : Nat) : ServerState :=
  { s with message_queue := s.message_queue ++
      [{ id := msgId, sender_id := s.server_id, recipient_id := none
         message_type := .peer_discovery, content := peersSnapshot s.peers
         timestamp := now, ttl := 10, route := [s.server_id] }] }

/-- `register_peer`: upsert the peer record (existing records keep their
`neighbors`, new records start with an empty neighbor set), then broadcast
peer discovery; always returns `true`. -/
def register_peer (s : ServerState) (peer_id peer_name address : String)
    (discId : String) (now : Nat) : ServerState × Bool :=
  let peers :=
    match alookup s.peers peer_id with
    | some p => aset s.peers peer_id
        { p with name := peer_name, address := address, last_seen := now, is_online := true }
    | none => aset s.peers peer_id
        { id := peer_id, name := peer_name, address := address
          last_seen := now, is_online := true, neighbors := [] }
  (broadcast_peer_discovery { s with peers := peers } discId now, true)

/-- `unregister_peer`: a known id is marked offline with `last_seen`
refreshed and the routing table is recomputed, returning `true`; an
unknown id is a no-op returning `false`. -/
def unregister_peer (s : ServerState) (peer_id : String) (now : Nat) :
    Except Unit (ServerState × Bool) :=
  match alookup s.peers peer_id with
  | some p =>
      let p1 : Peer := { p with is_online := false, last_seen := now }
      let s1 : ServerState := { s with peers := aset s.peers peer_id p1 }
      match updateRoutingTable s1 with
      | .error e => .error e
      | .ok s2 => .ok (s2, true)
  | none => .ok (s, false)

/-- `send_message`: build a TEXT message with a fresh id, recipient set,
TTL 10 and route `[sender_id]`, record it in the store, enqueue it, and
return the message id. -/
def send_message (s : ServerState) (sender_id recipient_id content : String)
    (msgId : String) (now : Nat) : ServerState × String :=
  let m : Message :=
    { id := msgId, sender_id := sender_id, recipient_id := some recipient_id
      message_type := .text, content := content, timestamp := now
      ttl := 10, route := [sender_id] }
  ({ s with messages := aset s.messages msgId m
            message_queue := s.message_queue ++ [m] }, msgId)

/-- `broadcast_message`: like `send_message` but with no recipient. -/
def broadcast_message (s : ServerState) (sender_id content : String)
    (msgId : String) (now : Nat) : ServerState × String :=
  let m : Message :=
    { id := msgId, sender_id := sender_id, recipient_id := none
      message_type := .text, content := content, timestamp := now
      ttl := 10, route := [sender_id] }
  ({ s with messages := aset s.messages msgId m
            message_queue := s.message_queue ++ [m] }, msgId)

/-- `len (self.messages)`, reported as `message_count` by
`get_network_status`. -/
def message_count (s : ServerState) : Nat := s.messages.length

/-- Observable actions of one `_route_message` run: a (simulated) forward
of a message to a next hop, a local delivery, and the construction of an
acknowledgment object in `_handle_incoming_message`. -/
inductive RouteEffect where
  | forwarded (m : Message) (next_hop : String)
  | deliveredLocally (m : Message)
  | ackCreated (m : Message)
  deriving Repr, DecidableEq

/-- `_broadcast_to_neighbors` inner loop: forward to every online
neighbor in order; each forward mutates the message's route in place, so
the message is threaded through the fold.  `self.peers [peer_id]` raises
`KeyError` on an unknown neighbor id. -/
def broadcastFold (s : ServerState) (m : Message) (evs : List RouteEffect) :
    List String → Except Unit (Message × List RouteEffect)
  | [] => .ok (m, evs)
  | pid :: rest =>
      match alookup s.peers pid with
      | none => .error ()
      | some p =>
          if p.is_online then
            let m1 := forward_message s.server_id m
            broadcastFold s m1 (evs ++ [.forwarded m1 pid]) rest
          else broadcastFold s m evs rest

/-- `_broadcast_to_neighbors`: iterate over the server's neighbor set
(`self.peers [self.server_id]` raises `KeyError` when the server record
is missing). -/
def broadcast_to_neighbors (s : ServerState) (m : Message) :
    Except Unit (Message × List RouteEffect) :=
  match alookup s.peers s.server_id with
  | none => .error ()
  | some sp => broadcastFold s m [] sp.neighbors

/-- The acknowledgment object built by `_handle_incoming_message`: fresh
id, sent by the server to the original sender, kind ACK, content
`"ACK:" ++ message.id`, default TTL 10, route `[server_id]`. -/
def mkAck (server_id : String) (msg : Message) (ackId : String) (now : Nat) : Message :=
  { id := ackId, sender_id := server_id, recipient_id := some msg.sender_id
    message_type := .ack, content := "ACK:" ++ msg.id, timestamp := now
    ttl := 10, route := [server_id] }

/-- `_handle_incoming_message`: unconditionally build an acknowledgment
(no message-kind test in the code), look up a next hop toward the original
sender, and forward the ack there when `if next_hop:` is truthy (neither
`None` nor the empty string); otherwise the ack object is dropped.  The
ack is neither recorded in the message store nor put on the queue. -/
def handleIncoming (s : ServerState) (msg : Message) (ackId : String) (now : Nat) :
    Except Unit (Message × List RouteEffect) :=
  let ack := mkAck s.server_id msg ackId now
  match getNextHop s.routing_table msg.sender_id with
  | .error e => .error e
  | .ok (some h) =>
      if h = "" then .ok (msg, [.deliveredLocally msg, .ackCreated ack])
      else .ok (msg, [.deliveredLocally msg, .ackCreated ack,
                      .forwarded (forward_message s.server_id ack) h])
  | .ok none => .ok (msg, [.deliveredLocally msg, .ackCreated ack])

/-- `_route_message` after the TTL check and decrement: broadcast when the
recipient is absent, deliver locally when it is the server, otherwise
forward to the next hop when `if next_hop:` is truthy and drop with a
warning when it is not. -/
def routeDispatch (s : ServerState) (msg : Message) (ackId : String) (now : Nat) :
    Except Unit (Message × List RouteEffect) :=
  match msg.recipient_id with
  | none => broadcast_to_neighbors s msg
  | some rid =>
      if rid = s.server_id then handleIncoming s msg ackId now
      else
        match getNextHop s.routing_table rid with
        | .error e => .error e
        | .ok (some h) =>
            if h = "" then .ok (msg, [])
            else
              let m1 := forward_message s.server_id msg
              .ok (m1, [.forwarded m1 h])
        | .ok none => .ok (msg, [])

/-- `_route_message`: drop (no effect at all) when `ttl <= 0`, else
decrement the TTL by exactly 1 and dispatch the decremented message. -/
def routeMessage (s : ServerState) (msg : Message) (ackId : String) (now : Nat) :
    Except Unit (Message × List RouteEffect) :=
  if msg.ttl ≤ 0 then .ok (msg, [])
  else routeDispatch s { msg with ttl := msg.ttl - 1 } ackId now

/-- One iteration of `_message_processor` when `_route_message` returns
normally: pop the head of the queue, route it, and — because the queued
object and the stored object are the same Python object — write the
mutated message back into the store when its id is recorded there.  An
empty queue models the `wait_for` timeout (a no-op re-check). -/
def drainStep (s : ServerState) (ackId : String) (now : Nat) :
    Except Unit (ServerState × List RouteEffect) :=
  match s.message_queue with
  | [] => .ok (s, [])
  | msg :: rest =>
      match routeMessage s msg ackId now with
      | .error e => .error e
      | .ok (m, evs) =>
          .ok ({ s with message_queue := rest,
                        messages := if (alookup s.messages msg.id).isSome
                                    then aset s.messages msg.id m
                                    else s.messages }, evs)

/-- One iteration of `_message_processor` when `_route_message` raises
(the loop catches and logs the exception): the message is popped and its
TTL decrement — which in the code always precedes any raising call —
persists through the store alias. -/
def drainStepErr (s : ServerState) (msg : Message) (rest : List Message) : ServerState :=
  { s with message_queue := rest,
           messages := if (alookup s.messages msg.id).isSome
                       then aset s.messages msg.id { msg with ttl := msg.ttl - 1 }
                       else s.messages }

/-- `_peer_monitor` body: for each peer id (key snapshot of the dict), if
it is not the server, currently online, and `now - last_seen > 30`, clear
the online flag (`last_seen` is not touched) and recompute the routing
table before moving on. -/
def monitorFold (server_id : String) (now : Nat) :
    List String → ServerState → Except Unit ServerState
  | [], s => .ok s
  | pid :: rest, s =>
      match alookup s.peers pid with
      | none => monitorFold server_id now rest s
      | some p =>
          if pid ≠ server_id ∧ p.is_online = true then
            if (30 : Int) < (now : Int) - (p.last_seen : Int) then
              match updateRoutingTable
                  { s with peers := aset s.peers pid { p with is_online := false } } with
              | .error e => .error e
              | .ok s1 => monitorFold server_id now rest s1
            else monitorFold server_id now rest s
          else monitorFold server_id now rest s

/-- One sweep of `_peer_monitor` at time `now` (timeout constant 30). -/
def monitorSweep (s : ServerState) (now : Nat) : Except Unit ServerState :=
  monitorFold s.server_id now (s.peers.map Prod.fst) s

/-- One state transition of the node: a facade call (`register_peer`,
`unregister_peer`, `send_message`, `broadcast_message`, `start`, `stop`)
or one iteration of a background loop (processor drain — normal or with a
caught exception — monitor sweep, periodic route update).
`get_network_status` is read-only and changes no state. -/
inductive Step : ServerState → ServerState → Prop where
  | register (s : ServerState) (pid pname addr discId : String) (now : Nat) :
      Step s (register_peer s pid pname addr discId now).1
  | unregister (s s1 : ServerState) (pid : String) (now : Nat) (b : Bool)
      (h : unregister_peer s pid now = .ok (s1, b)) : Step s s1
  | send (s : ServerState) (sender rcpt content msgId : String) (now : Nat) :
      Step s (send_message s sender rcpt content msgId now).1
  | broadcast (s : ServerState) (sender content msgId : String) (now : Nat) :
      Step s (broadcast_message s sender content msgId now).1
  | drain (s s1 : ServerState) (ackId : String) (now : Nat) (evs : List RouteEffect)
      (h : drainStep s ackId now = .ok (s1, evs)) : Step s s1
  | drainError (s : ServerState) (msg : Message) (rest : List Message)
      (ackId : String) (now : Nat) (e : Unit)
      (hq : s.message_queue = msg :: rest)
      (he : routeMessage s msg ackId now = .error e) :
      Step s (drainStepErr s msg rest)
  | monitor (s s1 : ServerState) (now : Nat) (h : monitorSweep s now = .ok s1) :
      Step s s1
  | routeUpdate (s s1 : ServerState) (h : updateRoutingTable s = .ok s1) :
      Step s s1
  | startServer (s : ServerState) : Step s { s with running := true }
  | stopServer (s : ServerState) : Step s { s with running := false }

/-- States reachable from a given initial state by facade operations and
background-loop iterations. -/
def Reachable (init s : ServerState) : Prop := Relation.ReflTransGen Step init s

/-- Well-formedness of the peer registry, as a decidable check: the server
has a peer record, and every neighbor of the server is a registered peer
other than the server itself. -/
def WFb (s : ServerState) : Bool :=
  match alookup s.peers s.server_id with
  | some p => p.neighbors.all (fun n => (n != s.server_id) && (alookup s.peers n).isSome)
  | none => false

/-- The first neighbor in the given order whose peer record is online:
with the constant relay cost 2, this is exactly the `best_neighbor`
that the `cost < min_cost` scan of `_update_routing_table` selects. -/
def firstOnlineRelay (peers : List (String × Peer)) : List String → Option String
  | [] => none
  | nid :: rest =>
      match alookup peers nid with
      | some p => if p.is_online then some nid else firstOnlineRelay peers rest
      | none => firstOnlineRelay peers rest

/-! Concrete fixtures used by the counterexamples and witnesses. -/

/-- Fixture: the server's own peer record, no neighbors. -/
def peerSrv : Peer :=
  { id := "s", name := "srv", address := "localhost"
    last_seen := 0, is_online := true, neighbors := [] }

/-- Fixture: the server's record with the single neighbor `"n"`. -/
def peerSrvN : Peer := { peerSrv with neighbors := ["n"] }

/-- Fixture: an online neighbor peer. -/
def peerN : Peer :=
  { id := "n", name := "nn", address := "addr-n"
    last_seen := 0, is_online := true, neighbors := [] }

/-- Fixture: an offline peer. -/
def peerPoff : Peer :=
  { id := "p", name := "pp", address := "addr-p"
    last_seen := 0, is_online := false, neighbors := [] }

/-- Fixture: the same peer, online. -/
def peerPon : Peer := { peerPoff with is_online := true }

/-- Fixture: server plus one offline non-neighbor peer `"p"`. -/
def stNoNbr : ServerState :=
  { server_id := "s", server_name := "srv"
    peers := [("s", peerSrv), ("p", peerPoff)]
    messages := [], routing_table := [], message_queue := [], running := false }

/-- `stNoNbr` after one routing-table recomputation: `"p"` is present with
an empty candidate map. -/
def stNoNbrAfter : ServerState := { stNoNbr with routing_table := [("p", [])] }

/-- Fixture: server with online neighbor `"n"` and offline non-neighbor
`"p"`. -/
def stWithNbr : ServerState :=
  { stNoNbr with peers := [("s", peerSrvN), ("n", peerN), ("p", peerPoff)] }

/-- `stWithNbr` after one routing-table recomputation: the offline peer
`"p"` received the relay entry `("n", 2)`. -/
def stWithNbrAfter : ServerState :=
  { stWithNbr with routing_table := [("n", [("n", 1)]), ("p", [("n", 2)])] }

/-- Fixture: server plus one online peer `"p"` whose `last_seen` is stale. -/
def stMon : ServerState := { stNoNbr with peers := [("s", peerSrv), ("p", peerPon)] }

/-- `stMon` after one monitor sweep at time 100: `"p"` went offline but
its `last_seen` still reads 0. -/
def stMonAfter : ServerState :=
  { stMon with peers := [("s", peerSrv), ("p", { peerPon with is_online := false })]
               routing_table := [("p", [])] }

/-- Fixture: a non-text (kind `system`) message addressed to the server. -/
def msgSysToSrv : Message :=
  { id := "m1", sender_id := "a", recipient_id := some "s"
    message_type := .system, content := "x", timestamp := 0, ttl := 5, route := ["a"] }

/-! Association-list lemmas: the Python-dict semantics of `alookup`/`aset`. -/

/-- Reading back after a dict write. -/
theorem alookup_aset {α : Type} (l : List (String × α)) (k k' : String) (v : α) :
    alookup (aset l k v) k' = if k = k' then some v else alookup l k' := by
  induction l with
  | nil =>
      by_cases h : k = k' <;> simp [aset, alookup, h]
  | cons kv rest ih =>
      obtain ⟨k1, v1⟩ := kv
      by_cases h1 : k1 = k
      · subst h1
        by_cases h2 : k1 = k' <;> simp [aset, alookup, h2]
      · by_cases h2 : k1 = k'
        · subst h2
          have hk : ¬ k = k1 := fun h => h1 h.symm
          simp [aset, alookup, h1, hk]
        · simp [aset, alookup, h1, h2, ih]

/-- A write produces the written pair or keeps an existing pair. -/
theorem mem_aset {α : Type} (l : List (String × α)) (k : String) (v : α)
    (p : String × α) (h : p ∈ aset l k v) : p = (k, v) ∨ p ∈ l := by
  induction l with
  | nil => simpa [aset] using h
  | cons kv rest ih =>
      obtain ⟨k1, v1⟩ := kv
      by_cases h1 : k1 = k
      · subst h1
        simp [aset] at h
        rcases h with h | h
        · exact Or.inl (by simp [h])
        · exact Or.inr (by simp [h])
      · simp [aset, h1] at h
        rcases h with h | h
        · exact Or.inr (by simp [h])
        · rcases ih h with h2 | h2
          · exact Or.inl h2
          · exact Or.inr (by simp [h2])

/-- A successful lookup exhibits a member of the list. -/
theorem alookup_mem {α : Type} (l : List (String × α)) (k : String) (v : α)
    (h : alookup l k = some v) : (k, v) ∈ l := by
  induction l with
  | nil => simp [alookup] at h
  | cons kv rest ih =>
      obtain ⟨k1, v1⟩ := kv
      by_cases h1 : k1 = k
      · subst h1
        simp [alookup] at h
        simp [h]
      · simp [alookup, h1] at h
        simp [ih h]

/-- Writing back the value a key already holds changes nothing. -/
theorem aset_self {α : Type} (l : List (String × α)) (k : String) (v : α)
    (h : alookup l k = some v) : aset l k v = l := by
  induction l with
  | nil => simp [alookup] at h
  | cons kv rest ih =>
      obtain ⟨k1, v1⟩ := kv
      by_cases h1 : k1 = k
      · subst h1
        simp [alookup] at h
        simp [aset, h]
      · simp [alookup, h1] at h
        simp [aset, h1, ih h]

/-- A key resolves exactly when it occurs among the stored keys. -/
theorem alookup_isSome_iff {α : Type} (l : List (String × α)) (k : String) :
    (alookup l k).isSome = true ↔ k ∈ l.map Prod.fst := by
  induction l with
  | nil => simp [alookup]
  | cons kv rest ih =>
      obtain ⟨k1, v1⟩ := kv
      by_cases h1 : k1 = k
      · subst h1
        simp [alookup]
      · have h2 : ¬ k = k1 := fun h => h1 h.symm
        simp [alookup, h1, ih, h2]

/-! Properties of the stable minimum used by `_get_next_hop`. -/

/-- The fold result is the start element or a list element. -/
theorem foldl_minStep_mem (l : CandMap) (c : String × Nat) :
    l.foldl minStep c = c ∨ l.foldl minStep c ∈ l := by
  induction l generalizing c with
  | nil => simp
  | cons x rest ih =>
      simp only [List.foldl_cons]
      rcases ih (minStep c x) with h | h
      · rw [h]
        unfold minStep
        by_cases hx : x.2 < c.2
        · simp [hx]
        · simp [hx]
      · exact Or.inr (List.mem_cons_of_mem x h)

/-- The fold result has cost at most the start's and every element's. -/
theorem foldl_minStep_le (l : CandMap) (c : String × Nat) :
    (l.foldl minStep c).2 ≤ c.2 ∧ ∀ x ∈ l, (l.foldl minStep c).2 ≤ x.2 := by
  induction l generalizing c with
  | nil => simp
  | cons x rest ih =>
      simp only [List.foldl_cons]
      obtain ⟨h1, h2⟩ := ih (minStep c x)
      have hc : (minStep c x).2 ≤ c.2 ∧ (minStep c x).2 ≤ x.2 := by
        unfold minStep
        by_cases hx : x.2 < c.2 <;> simp [hx] <;> omega
      refine ⟨le_trans h1 hc.1, ?_⟩
      intro y hy
      rcases List.mem_cons.mp hy with rfl | hy
      · exact le_trans h1 hc.2
      · exact h2 y hy

/-- `minByCost` returns an element of minimal cost. -/
theorem minByCost_spec (l : CandMap) (e : String × Nat) (h : minByCost l = some e) :
    e ∈ l ∧ ∀ x ∈ l, e.2 ≤ x.2 := by
  cases l with
  | nil => simp [minByCost] at h
  | cons c rest =>
      simp only [minByCost, Option.some.injEq] at h
      subst h
      constructor
      · rcases foldl_minStep_mem rest c with h | h
        · rw [h]; exact List.mem_cons_self c rest
        · exact List.mem_cons_of_mem _ h
      · intro x hx
        obtain ⟨h1, h2⟩ := foldl_minStep_le rest c
        rcases List.mem_cons.mp hx with rfl | hx
        · exact h1
        · exact h2 x hx

/-! C1 — next-hop selection. -/

/-- C1 counterexample: the claim says the lookup never raises, even for a
destination whose routing-table entry is an empty candidate map.  But
after a recomputation on `stNoNbr` the destination `"p"` is present with
the empty candidate map, and `_get_next_hop "p"` runs `min` on an empty
sequence: a `ValueError` is raised. -/
theorem getNextHop_raises_on_empty_entry :
    updateRoutingTable stNoNbr = .ok stNoNbrAfter ∧
    alookup stNoNbrAfter.routing_table "p" = some [] ∧
    getNextHop stNoNbrAfter.routing_table "p" = .error () :=
  ⟨rfl, rfl, rfl⟩

/-- C1 (amended): `_get_next_hop` returns `None` when the destination has
no routing-table entry, raises `ValueError` when the entry is an empty
candidate map, and otherwise returns — without raising — a candidate of
minimum cost (the first such in iteration order). -/
theorem getNextHop_characterization (rt : RoutingTable) (d : String) :
    (alookup rt d = none → getNextHop rt d = .ok none) ∧
    (alookup rt d = some [] → getNextHop rt d = .error ()) ∧
    (∀ cands, alookup rt d = some cands → ∀ e, minByCost cands = some e →
      getNextHop rt d = .ok (some e.1) ∧ e ∈ cands ∧ ∀ x ∈ cands, e.2 ≤ x.2) ∧
    (∀ c cs, alookup rt d = some (c :: cs) → getNextHop rt d ≠ .error ()) := by
  refine ⟨?_, ?_, ?_, ?_⟩
  · intro h; simp [getNextHop, h]
  · intro h; simp [getNextHop, h, minByCost]
  · intro cands h e he
    exact ⟨by simp [getNextHop, h, he], (minByCost_spec cands e he).1,
      (minByCost_spec cands e he).2⟩
  · intro c cs h
    simp [getNextHop, h, minByCost]

/-- C1 witness: on the table `[("d", [("a", 3), ("b", 1), ("c", 1)])]`
the lookup returns `"b"`, the first candidate of minimal cost 1. -/
theorem getNextHop_characterization_witness :
    getNextHop [("d", [("a", 3), ("b", 1), ("c", 1)])] "d" = .ok (some "b") ∧
    ("b", 1) ∈ [("a", 3), ("b", 1), ("c", 1)] ∧
    ∀ x ∈ [("a", 3), ("b", 1), ("c", 1)], 1 ≤ x.2 :=
  (getNextHop_characterization [("d", [("a", 3), ("b", 1), ("c", 1)])] "d").2.2.1
    [("a", 3), ("b", 1), ("c", 1)] rfl ("b", 1) rfl

/-! C9 — the route-append check of the simulated forward. -/

/-- Fixture: a message whose route already contains `"s"`, but not as the
last entry. -/
def msgRouteSX : Message := { msgSysToSrv with route := ["s", "x"] }

/-- C9 counterexample: the claim says the server id is appended exactly
when it is not the last route entry.  Here the last entry is `"x" ≠ "s"`,
yet `_forward_message` appends nothing, because the code tests membership
(`self.server_id not in message.route`), and `"s"` occurs earlier in the
route. -/
theorem forward_message_nonlast_cex :
    msgRouteSX.route.getLast? = some "x" ∧ "x" ≠ "s" ∧
    forward_message "s" msgRouteSX = msgRouteSX :=
  ⟨rfl, by decide, rfl⟩

/-- C9 (amended): the simulated forward appends the local node's id to the
message's route exactly when the id occurs nowhere in the route — a
membership test, not a last-entry test. -/
theorem forward_message_appends_iff (sid : String) (m : Message) :
    (forward_message sid m).route = m.route ++ [sid] ↔ sid ∉ m.route := by
  constructor
  · intro h hmem
    rw [forward_message, if_pos hmem] at h
    have hlen := congrArg List.length h
    simp at hlen
  · intro h
    rw [forward_message, if_neg h]

/-! C4 — TTL handling per routing step. -/

/-- The route mutation of the simulated forward never touches the TTL. -/
theorem forward_message_ttl (sid : String) (m : Message) :
    (forward_message sid m).ttl = m.ttl := by
  rw [forward_message]
  by_cases h : sid ∈ m.route <;> simp [h]

/-- The neighbor-broadcast loop never touches the TTL. -/
theorem broadcastFold_ttl (s : ServerState) (nbrs : List String) (m m1 : Message)
    (evs evs1 : List RouteEffect) (h : broadcastFold s m evs nbrs = .ok (m1, evs1)) :
    m1.ttl = m.ttl := by
  induction nbrs generalizing m evs with
  | nil =>
      simp only [broadcastFold, Except.ok.injEq, Prod.mk.injEq] at h
      rw [← h.1]
  | cons n rest ih =>
      rw [broadcastFold] at h
      split at h
      · simp at h
      · split at h
        · have := ih _ _ h
          rw [this, forward_message_ttl]
        · exact ih _ _ h

/-- The dispatch after the TTL decrement returns the drained message with
its TTL unchanged (the code mutates TTL only in the one decrement). -/
theorem routeDispatch_ttl (s : ServerState) (m m1 : Message)
    (evs : List RouteEffect) (ackId : String) (now : Nat)
    (h : routeDispatch s m ackId now = .ok (m1, evs)) : m1.ttl = m.ttl := by
  rw [routeDispatch] at h
  split at h
  · rw [broadcast_to_neighbors] at h
    split at h
    · simp at h
    · exact broadcastFold_ttl _ _ m m1 _ evs h
  · split at h
    · simp only [handleIncoming] at h
      split at h
      · simp at h
      · split at h
        · simp only [Except.ok.injEq, Prod.mk.injEq] at h
          rw [← h.1]
        · simp only [Except.ok.injEq, Prod.mk.injEq] at h
          rw [← h.1]
      · simp only [Except.ok.injEq, Prod.mk.injEq] at h
        rw [← h.1]
    · split at h
      · simp at h
      · split at h
        · simp only [Except.ok.injEq, Prod.mk.injEq] at h
          rw [← h.1]
        · simp only [Except.ok.injEq, Prod.mk.injEq] at h
          rw [← h.1, forward_message_ttl]
      · simp only [Except.ok.injEq, Prod.mk.injEq] at h
        rw [← h.1]

/-- C4 (confirmed): when the processor drains a message with TTL ≤ 0 the
message is dropped — no effect is produced, the message is untouched and
the store and the rest of the state are unchanged apart from popping the
queue; with positive TTL the TTL is decremented by exactly 1 before the
dispatch (broadcast, local delivery or forward), and any normally routed
message comes out with TTL exactly one less. -/
theorem routeMessage_ttl_step (s : ServerState) (msg : Message) (rest : List Message)
    (ackId : String) (now : Nat)
    (hq : s.message_queue = msg :: rest)
    (halias : alookup s.messages msg.id = some msg ∨ alookup s.messages msg.id = none) :
    (msg.ttl ≤ 0 →
      routeMessage s msg ackId now = .ok (msg, []) ∧
      drainStep s ackId now = .ok ({ s with message_queue := rest }, [])) ∧
    (0 < msg.ttl →
      routeMessage s msg ackId now
        = routeDispatch s { msg with ttl := msg.ttl - 1 } ackId now ∧
      ∀ m1 evs, routeMessage s msg ackId now = .ok (m1, evs) →
        m1.ttl = msg.ttl - 1) := by
  constructor
  · intro h
    have hr : routeMessage s msg ackId now = .ok (msg, []) := by
      rw [routeMessage, if_pos h]
    refine ⟨hr, ?_⟩
    have hms : (if (alookup s.messages msg.id).isSome = true
        then aset s.messages msg.id msg else s.messages) = s.messages := by
      rcases halias with ha | ha
      · rw [aset_self s.messages msg.id msg ha]
        simp
      · simp [ha]
    simp only [drainStep, hq, hr, hms]
  · intro h
    have hr : routeMessage s msg ackId now
        = routeDispatch s { msg with ttl := msg.ttl - 1 } ackId now := by
      rw [routeMessage, if_neg (by omega)]
    refine ⟨hr, ?_⟩
    intro m1 evs hm
    rw [hr] at hm
    exact routeDispatch_ttl s _ m1 evs ackId now hm

/-- Fixture: a message whose TTL is exhausted. -/
def msgTTL0 : Message := { msgSysToSrv with ttl := 0 }

/-- Fixture: `stNoNbr` with the exhausted message queued. -/
def stQ0 : ServerState := { stNoNbr with message_queue := [msgTTL0] }

/-- C4 witness: draining an exhausted message pops the queue and changes
nothing else. -/
theorem routeMessage_ttl_step_witness :
    drainStep stQ0 "ack" 1 = .ok ({ stQ0 with message_queue := [] }, []) :=
  ((routeMessage_ttl_step stQ0 msgTTL0 [] "ack" 1 rfl (Or.inr rfl)).1 (by decide)).2

/-! C5 — acknowledgment synthesis on local delivery. -/

/-- Fixture: a text message addressed to the server. -/
def msgTextToSrv : Message := { msgSysToSrv with id := "mt", message_type := .text }

/-- Fixture: `stNoNbr` with the text message stored and queued. -/
def stQText : ServerState :=
  { stNoNbr with messages := [("mt", msgTextToSrv)], message_queue := [msgTextToSrv] }

/-- `stQText` after one processor drain: the queue is empty (no ack was
enqueued), and the store still holds only the original message, with its
TTL decremented through the store alias. -/
def stQTextAfter : ServerState :=
  { stQText with messages := [("mt", { msgTextToSrv with ttl := 4 })], message_queue := [] }

/-- C5 counterexample: the claim says an acknowledgment is synthesized
exactly when the delivered message's kind is text, and that it is
enqueued.  But `_handle_incoming_message` never inspects the kind: the
kind-`system` message also produces an acknowledgment.  And for a text
message the acknowledgment is not enqueued: the drain pops the queue to
empty and never stores or queues the ack (here no route back exists, so
the ack object is silently dropped). -/
theorem ack_synthesis_cex :
    msgSysToSrv.message_type ≠ .text ∧
    routeMessage stNoNbr msgSysToSrv "ack1" 7
      = .ok ({ msgSysToSrv with ttl := 4 },
             [.deliveredLocally { msgSysToSrv with ttl := 4 },
              .ackCreated (mkAck "s" { msgSysToSrv with ttl := 4 } "ack1" 7)]) ∧
    drainStep stQText "ack2" 8
      = .ok (stQTextAfter,
             [.deliveredLocally { msgTextToSrv with ttl := 4 },
              .ackCreated (mkAck "s" { msgTextToSrv with ttl := 4 } "ack2" 8)]) :=
  ⟨by decide, rfl, by rfl⟩

/-- C5 (amended): local delivery of a message of any kind synthesizes
exactly one acknowledgment — kind ACK, addressed to the original sender,
content `"ACK:" ++` the original id — and forwards it directly to the
next hop toward the sender when the routing table yields one (with a
nonempty id); when no route exists the ack object is dropped.  It is
never enqueued and never stored. -/
theorem handleIncoming_ack_spec (s : ServerState) (msg : Message) (ackId : String)
    (now : Nat) (hrec : msg.recipient_id = some s.server_id) (httl : 0 < msg.ttl) :
    (getNextHop s.routing_table msg.sender_id = .ok none →
      routeMessage s msg ackId now
        = .ok ({ msg with ttl := msg.ttl - 1 },
               [.deliveredLocally { msg with ttl := msg.ttl - 1 },
                .ackCreated (mkAck s.server_id { msg with ttl := msg.ttl - 1 } ackId now)])) ∧
    (∀ hop, getNextHop s.routing_table msg.sender_id = .ok (some hop) → hop ≠ "" →
      routeMessage s msg ackId now
        = .ok ({ msg with ttl := msg.ttl - 1 },
               [.deliveredLocally { msg with ttl := msg.ttl - 1 },
                .ackCreated (mkAck s.server_id { msg with ttl := msg.ttl - 1 } ackId now),
                .forwarded (forward_message s.server_id
                  (mkAck s.server_id { msg with ttl := msg.ttl - 1 } ackId now)) hop])) ∧
    (mkAck s.server_id { msg with ttl := msg.ttl - 1 } ackId now).recipient_id
      = some msg.sender_id ∧
    (mkAck s.server_id { msg with ttl := msg.ttl - 1 } ackId now).content
      = "ACK:" ++ msg.id ∧
    (mkAck s.server_id { msg with ttl := msg.ttl - 1 } ackId now).message_type = .ack := by
  have hdis : routeMessage s msg ackId now
      = handleIncoming s { msg with ttl := msg.ttl - 1 } ackId now := by
    rw [routeMessage, if_neg (by omega), routeDispatch]
    simp [hrec]
  refine ⟨?_, ?_, rfl, rfl, rfl⟩
  · intro hnh
    rw [hdis]
    simp only [handleIncoming, hnh]
  · intro hop hnh hne
    rw [hdis]
    simp only [handleIncoming, hnh]
    rw [if_neg hne]

/-- Fixture: a state whose routing table has a route back to sender `"a"`. -/
def stAckRt : ServerState := { stNoNbr with routing_table := [("a", [("n", 1)])] }

/-- C5 witness: delivering the text message on `stAckRt` yields exactly
one acknowledgment, forwarded to the next hop `"n"`. -/
theorem handleIncoming_ack_spec_witness :
    routeMessage stAckRt msgTextToSrv "ack9" 9
      = .ok ({ msgTextToSrv with ttl := msgTextToSrv.ttl - 1 },
             [.deliveredLocally { msgTextToSrv with ttl := msgTextToSrv.ttl - 1 },
              .ackCreated (mkAck stAckRt.server_id
                { msgTextToSrv with ttl := msgTextToSrv.ttl - 1 } "ack9" 9),
              .forwarded (forward_message stAckRt.server_id
                (mkAck stAckRt.server_id
                  { msgTextToSrv with ttl := msgTextToSrv.ttl - 1 } "ack9" 9)) "n"]) :=
  (handleIncoming_ack_spec stAckRt msgTextToSrv "ack9" 9 rfl (by decide)).2.1
    "n" rfl (by decide)

/-! C6 — `last_seen` on offline transitions. -/

/-- C6 counterexample: the monitor sweep at time 100 marks the stale peer
`"p"` offline but leaves its `last_seen` at 0 — the sweep does not
refresh the timestamp at the transition. -/
theorem monitor_last_seen_cex :
    monitorSweep stMon 100 = .ok stMonAfter ∧
    alookup stMonAfter.peers "p" = some { peerPon with is_online := false } ∧
    ({ peerPon with is_online := false } : Peer).last_seen = 0 :=
  ⟨rfl, rfl, rfl⟩

/-- `_update_routing_table` changes only the routing table. -/
theorem updateRoutingTable_frame (s s1 : ServerState)
    (h : updateRoutingTable s = .ok s1) :
    s1.peers = s.peers ∧ s1.messages = s.messages ∧
    s1.message_queue = s.message_queue ∧ s1.server_id = s.server_id ∧
    s1.server_name = s.server_name ∧ s1.running = s.running := by
  rw [updateRoutingTable] at h
  split at h
  · simp at h
  · simp only [Except.ok.injEq] at h
    subst h
    simp

/-- The monitor sweep never modifies any peer's `last_seen`. -/
theorem monitorFold_last_seen (sid : String) (now : Nat) (ids : List String)
    (s s1 : ServerState) (h : monitorFold sid now ids s = .ok s1) :
    ∀ q pq, alookup s1.peers q = some pq →
      ∃ p0, alookup s.peers q = some p0 ∧ pq.last_seen = p0.last_seen := by
  induction ids generalizing s with
  | nil =>
      simp only [monitorFold, Except.ok.injEq] at h
      subst h
      intro q pq hq
      exact ⟨pq, hq, rfl⟩
  | cons pid rest ih =>
      rw [monitorFold] at h
      split at h
      · exact ih s h
      · rename_i p hp
        split at h
        · split at h
          · split at h
            · simp at h
            · rename_i s2 heq
              intro q pq hq
              obtain ⟨p1, hp1, hls⟩ := ih _ h q pq hq
              rw [(updateRoutingTable_frame _ _ heq).1] at hp1
              simp only at hp1
              rw [alookup_aset] at hp1
              by_cases hpq : pid = q
              · rw [if_pos hpq] at hp1
                have hp1e : p1 = { p with is_online := false } := by
                  injection hp1 with h1
                  exact h1.symm
                refine ⟨p, ?_, ?_⟩
                · rw [← hpq]; exact hp
                · rw [hls, hp1e]
              · rw [if_neg hpq] at hp1
                exact ⟨p1, hp1, hls⟩
          · exact ih s h
        · exact ih s h

/-- C6 (amended): `unregister_peer` on a known id clears the online flag
and refreshes `last_seen` at that moment, but the monitor's liveness
sweep clears the flag without touching `last_seen` — the claimed
invariant holds for unregistration only. -/
theorem offline_transition_last_seen (s s1 : ServerState) (pid : String) (p : Peer)
    (now : Nat) (b : Bool) :
    (alookup s.peers pid = some p → unregister_peer s pid now = .ok (s1, b) →
      b = true ∧
      alookup s1.peers pid = some { p with is_online := false, last_seen := now }) ∧
    (monitorSweep s now = .ok s1 →
      ∀ q pq, alookup s1.peers q = some pq →
        ∃ p0, alookup s.peers q = some p0 ∧ pq.last_seen = p0.last_seen) := by
  constructor
  · intro hp hu
    rw [unregister_peer] at hu
    simp only [hp] at hu
    split at hu
    · simp at hu
    · rename_i s2 heq
      simp only [Except.ok.injEq, Prod.mk.injEq] at hu
      obtain ⟨hs2, hb⟩ := hu
      subst hs2
      refine ⟨hb.symm, ?_⟩
      rw [(updateRoutingTable_frame _ _ heq).1]
      simp only
      rw [alookup_aset, if_pos rfl]
  · intro hm
    exact monitorFold_last_seen _ _ _ _ _ hm

/-- `stNoNbr` after unregistering `"p"` at time 9. -/
def stUnregAfter : ServerState :=
  { stNoNbr with
      peers := [("s", peerSrv), ("p", { peerPoff with is_online := false, last_seen := 9 })]
      routing_table := [("p", [])] }

/-- C6 witness: unregistration does refresh `last_seen` at the moment the
flag is cleared. -/
theorem offline_transition_last_seen_witness :
    alookup stUnregAfter.peers "p"
      = some { peerPoff with is_online := false, last_seen := 9 } :=
  ((offline_transition_last_seen stNoNbr stUnregAfter "p" peerPoff 9 true).1 rfl rfl).2

/-! C8 — the message store. -/

/-- C8 counterexample: the claim says every message the system creates is
recorded in the store.  But `_broadcast_peer_discovery` creates a
peer-discovery message, puts it on the queue, and never records it: the
store is unchanged, its lookup of the new id fails, and `message_count`
does not grow. -/
theorem peer_discovery_not_stored_cex :
    (broadcast_peer_discovery stNoNbr "d1" 3).messages = stNoNbr.messages ∧
    (broadcast_peer_discovery stNoNbr "d1" 3).message_queue.getLast?
      = some { id := "d1", sender_id := "s", recipient_id := none
               message_type := .peer_discovery, content := peersSnapshot stNoNbr.peers
               timestamp := 3, ttl := 10, route := ["s"] } ∧
    alookup (broadcast_peer_discovery stNoNbr "d1" 3).messages "d1" = none ∧
    message_count (broadcast_peer_discovery stNoNbr "d1" 3) = message_count stNoNbr :=
  ⟨rfl, rfl, rfl, rfl⟩

/-- The monitor sweep never modifies the message store. -/
theorem monitorFold_messages (sid : String) (now : Nat) (ids : List String)
    (s s1 : ServerState) (h : monitorFold sid now ids s = .ok s1) :
    s1.messages = s.messages := by
  induction ids generalizing s with
  | nil =>
      simp only [monitorFold, Except.ok.injEq] at h
      subst h
      rfl
  | cons pid rest ih =>
      rw [monitorFold] at h
      split at h
      · exact ih s h
      · split at h
        · split at h
          · split at h
            · simp at h
            · rename_i s2 heq
              rw [ih _ h, (updateRoutingTable_frame _ _ heq).2.1]
          · exact ih s h
        · exact ih s h

/-- C8 (amended): messages created by the facade (`send_message`,
`broadcast_message`) are recorded in the store under their id, and no
operation ever removes a store entry; but the processor's synthesized
acknowledgments and peer-discovery announcements are never recorded —
discovery messages are only queued and acks only forwarded — so
`message_count` counts facade-created messages only. -/
theorem message_store_spec (s : ServerState)
    (x y c msgId ackId discId pid pname addr : String) (now : Nat) :
    alookup (send_message s x y c msgId now).1.messages msgId
      = some { id := msgId, sender_id := x, recipient_id := some y
               message_type := .text, content := c, timestamp := now
               ttl := 10, route := [x] } ∧
    alookup (broadcast_message s x c msgId now).1.messages msgId
      = some { id := msgId, sender_id := x, recipient_id := none
               message_type := .text, content := c, timestamp := now
               ttl := 10, route := [x] } ∧
    (∀ k v, alookup s.messages k = some v →
      alookup (send_message s x y c msgId now).1.messages k ≠ none) ∧
    (∀ k v, alookup s.messages k = some v →
      alookup (broadcast_message s x c msgId now).1.messages k ≠ none) ∧
    (broadcast_peer_discovery s discId now).messages = s.messages ∧
    (register_peer s pid pname addr discId now).1.messages = s.messages ∧
    (∀ s1 evs, drainStep s ackId now = .ok (s1, evs) →
      (∀ k v, alookup s.messages k = some v → alookup s1.messages k ≠ none) ∧
      (∀ k, alookup s.messages k = none → alookup s1.messages k = none)) ∧
    (∀ s1, monitorSweep s now = .ok s1 → s1.messages = s.messages) := by
  refine ⟨?_, ?_, ?_, ?_, rfl, rfl, ?_, ?_⟩
  · simp only [send_message]
    rw [alookup_aset, if_pos rfl]
  · simp only [broadcast_message]
    rw [alookup_aset, if_pos rfl]
  · intro k v hk
    simp only [send_message]
    rw [alookup_aset]
    by_cases h : msgId = k
    · simp [h]
    · simp [h, hk]
  · intro k v hk
    simp only [broadcast_message]
    rw [alookup_aset]
    by_cases h : msgId = k
    · simp [h]
    · simp [h, hk]
  · intro s1 evs h
    rw [drainStep] at h
    split at h
    · simp only [Except.ok.injEq, Prod.mk.injEq] at h
      rw [← h.1]
      exact ⟨fun k v hk => by simp [hk], fun k hk => hk⟩
    · rename_i msg rest hq2
      split at h
      · simp at h
      · rename_i m0 evs0 pr
        simp only [Except.ok.injEq, Prod.mk.injEq] at h
        rw [← h.1]
        constructor
        · intro k v hk
          simp only
          split
          · rw [alookup_aset]
            by_cases hkk : msg.id = k
            · simp [hkk]
            · simp [hkk, hk]
          · simp [hk]
        · intro k hk
          simp only
          split
          · rename_i hs
            rw [alookup_aset]
            by_cases hkk : msg.id = k
            · rw [← hkk] at hk
              rw [hk] at hs
              simp at hs
            · simp [hkk, hk]
          · exact hk
  · intro s1 h
    exact monitorFold_messages _ _ _ _ _ h

/-- Fixture: `stNoNbr` with one message already stored. -/
def stMsg : ServerState := { stNoNbr with messages := [("m0", msgSysToSrv)] }

/-- C8 witness: after a facade send, a pre-existing store entry is still
present. -/
theorem message_store_spec_witness :
    alookup (send_message stMsg "a" "b" "hi" "m7" 4).1.messages "m0" ≠ none :=
  (message_store_spec stMsg "a" "b" "hi" "m7" "ack" "d" "p1" "nm" "ad" 4).2.2.1
    "m0" msgSysToSrv rfl

/-! Lemmas on the three passes of `_update_routing_table`. -/

/-- The reset pass does not touch keys outside the processed id list. -/
theorem initRT_lookup_notin (sid : String) (ids : List String) (rt : RoutingTable)
    (pid : String) (h : pid ∉ ids) :
    alookup (initRT sid ids rt) pid = alookup rt pid := by
  induction ids generalizing rt with
  | nil => rfl
  | cons k rest ih =>
      have hk : k ≠ pid := fun he => h (he ▸ List.mem_cons_self k rest)
      have hrest : pid ∉ rest := fun hm => h (List.mem_cons_of_mem k hm)
      rw [initRT]
      split
      · exact ih rt hrest
      · rw [ih _ hrest, alookup_aset, if_neg hk]

/-- The reset pass never writes the server's own key. -/
theorem initRT_lookup_sid (sid : String) (ids : List String) (rt : RoutingTable) :
    alookup (initRT sid ids rt) sid = alookup rt sid := by
  induction ids generalizing rt with
  | nil => rfl
  | cons k rest ih =>
      rw [initRT]
      split
      · exact ih rt
      · rename_i hk
        rw [ih _, alookup_aset, if_neg hk]

/-- After the reset pass every processed non-server key holds the empty
candidate map. -/
theorem initRT_lookup_mem (sid : String) (ids : List String) (rt : RoutingTable)
    (pid : String) (hmem : pid ∈ ids) (hpid : pid ≠ sid) :
    alookup (initRT sid ids rt) pid = some [] := by
  induction ids generalizing rt with
  | nil => simp at hmem
  | cons k rest ih =>
      rw [initRT]
      by_cases hk : k = sid
      · rw [if_pos hk]
        have : pid ∈ rest := by
          rcases List.mem_cons.mp hmem with rfl | hm
          · exact absurd hk hpid
          · exact hm
        exact ih _ this
      · rw [if_neg hk]
        by_cases hr : pid ∈ rest
        · exact ih _ hr
        · have hkp : k = pid := by
            rcases List.mem_cons.mp hmem with rfl | hm
            · rfl
            · exact absurd hm hr
          rw [initRT_lookup_notin sid rest _ pid hr, alookup_aset, if_pos hkp]

/-- The neighbor pass only rewrites existing keys, so key presence is
monotone. -/
theorem addNeighborRoutes_preserves_isSome (peers : List (String × Peer))
    (nbrs : List String) (rt rt1 : RoutingTable) (k : String)
    (h : addNeighborRoutes peers nbrs rt = .ok rt1)
    (hk : (alookup rt k).isSome = true) : (alookup rt1 k).isSome = true := by
  induction nbrs generalizing rt with
  | nil =>
      simp only [addNeighborRoutes, Except.ok.injEq] at h
      rw [← h]
      exact hk
  | cons n rest ih =>
      rw [addNeighborRoutes] at h
      split at h
      · simp at h
      · split at h
        · split at h
          · simp at h
          · refine ih _ h ?_
            rw [alookup_aset]
            by_cases hnk : n = k
            · simp [hnk]
            · simp [hnk, hk]
        · exact ih _ h hk

/-- The neighbor pass leaves keys outside the neighbor list untouched. -/
theorem addNeighborRoutes_lookup_notin (peers : List (String × Peer))
    (nbrs : List String) (rt rt1 : RoutingTable) (pid : String)
    (h : addNeighborRoutes peers nbrs rt = .ok rt1) (hpid : pid ∉ nbrs) :
    alookup rt1 pid = alookup rt pid := by
  induction nbrs generalizing rt with
  | nil =>
      simp only [addNeighborRoutes, Except.ok.injEq] at h
      rw [← h]
  | cons n rest ih =>
      have hn : n ≠ pid := fun he => hpid (he ▸ List.mem_cons_self n rest)
      have hrest : pid ∉ rest := fun hm => hpid (List.mem_cons_of_mem n hm)
      rw [addNeighborRoutes] at h
      split at h
      · simp at h
      · split at h
        · split at h
          · simp at h
          · rw [ih _ h hrest, alookup_aset, if_neg hn]
        · exact ih _ h hrest

/-- The neighbor pass succeeds when every neighbor has a peer record and a
table key. -/
theorem addNeighborRoutes_ok (peers : List (String × Peer)) (nbrs : List String)
    (rt : RoutingTable)
    (h : ∀ n ∈ nbrs, (alookup peers n).isSome = true ∧ (alookup rt n).isSome = true) :
    ∃ rt1, addNeighborRoutes peers nbrs rt = .ok rt1 := by
  induction nbrs generalizing rt with
  | nil => exact ⟨rt, rfl⟩
  | cons n rest ih =>
      obtain ⟨hp0, hr0⟩ := h n (List.mem_cons_self n rest)
      obtain ⟨p, hp⟩ := Option.isSome_iff_exists.mp hp0
      obtain ⟨inner, hr⟩ := Option.isSome_iff_exists.mp hr0
      simp only [addNeighborRoutes, hp]
      by_cases hon : p.is_online = true
      · simp only [hon, if_true, hr]
        refine ih _ ?_
        intro m hm
        obtain ⟨h1, h2⟩ := h m (List.mem_cons_of_mem n hm)
        refine ⟨h1, ?_⟩
        rw [alookup_aset]
        by_cases hnm : n = m
        · simp [hnm]
        · simp [hnm, h2]
      · simp only [hon, if_false]
        exact ih _ fun m hm => h m (List.mem_cons_of_mem n hm)

/-- Once the relay scan holds a cost-2 best candidate it never changes:
every later online neighbor also costs 2 and `2 < 2` fails. -/
theorem relayFold_some2 (peers : List (String × Peer)) (nbrs : List String)
    (b : String) (h : ∀ n ∈ nbrs, (alookup peers n).isSome = true) :
    relayFold peers (some (b, 2)) nbrs = .ok (some (b, 2)) := by
  induction nbrs with
  | nil => rfl
  | cons n rest ih =>
      obtain ⟨p, hp⟩ := Option.isSome_iff_exists.mp (h n (List.mem_cons_self n rest))
      have hrest := fun m hm => h m (List.mem_cons_of_mem n hm)
      simp only [relayFold, hp]
      by_cases hon : p.is_online = true
      · simp only [hon, if_true]
        have h22 : ¬ ((2 : Nat) < (b, 2).2) := by simp
        rw [if_neg h22]
        exact ih hrest
      · simp only [hon, if_false]
        exact ih hrest

/-- The relay scan from the empty accumulator returns the first online
neighbor at cost 2 (or nothing when no neighbor is online). -/
theorem relayFold_none_eq (peers : List (String × Peer)) (nbrs : List String)
    (h : ∀ n ∈ nbrs, (alookup peers n).isSome = true) :
    relayFold peers none nbrs
      = .ok ((firstOnlineRelay peers nbrs).map (fun n => (n, 2))) := by
  induction nbrs with
  | nil => rfl
  | cons n rest ih =>
      obtain ⟨p, hp⟩ := Option.isSome_iff_exists.mp (h n (List.mem_cons_self n rest))
      have hrest := fun m hm => h m (List.mem_cons_of_mem n hm)
      simp only [relayFold, firstOnlineRelay, hp]
      by_cases hon : p.is_online = true
      · simp only [hon, if_true]
        exact relayFold_some2 peers rest n hrest
      · simp only [hon, if_false]
        exact ih hrest

/-- The relay pass only rewrites existing keys, so key presence is
monotone. -/
theorem addRelayRoutes_preserves_isSome (peers : List (String × Peer)) (sid : String)
    (nbrs ids : List String) (rt rt1 : RoutingTable) (k : String)
    (h : addRelayRoutes peers sid nbrs ids rt = .ok rt1)
    (hk : (alookup rt k).isSome = true) : (alookup rt1 k).isSome = true := by
  induction ids generalizing rt with
  | nil =>
      simp only [addRelayRoutes, Except.ok.injEq] at h
      rw [← h]
      exact hk
  | cons pid rest ih =>
      rw [addRelayRoutes] at h
      split at h
      · split at h
        · simp at h
        · exact ih _ h hk
        · split at h
          · exact ih _ h hk
          · split at h
            · simp at h
            · refine ih _ h ?_
              rw [alookup_aset]
              by_cases hpk : pid = k
              · simp [hpk]
              · simp [hpk, hk]
      · exact ih _ h hk

/-- The relay pass leaves keys outside the processed id list untouched. -/
theorem addRelayRoutes_lookup_notin (peers : List (String × Peer)) (sid : String)
    (nbrs ids : List String) (rt rt1 : RoutingTable) (k : String)
    (h : addRelayRoutes peers sid nbrs ids rt = .ok rt1) (hk : k ∉ ids) :
    alookup rt1 k = alookup rt k := by
  induction ids generalizing rt with
  | nil =>
      simp only [addRelayRoutes, Except.ok.injEq] at h
      rw [← h]
  | cons pid rest ih =>
      have hp : pid ≠ k := fun he => hk (he ▸ List.mem_cons_self pid rest)
      have hrest : k ∉ rest := fun hm => hk (List.mem_cons_of_mem pid hm)
      rw [addRelayRoutes] at h
      split at h
      · split at h
        · simp at h
        · exact ih _ h hrest
        · split at h
          · exact ih _ h hrest
          · split at h
            · simp at h
            · rw [ih _ h hrest, alookup_aset, if_neg hp]
      · exact ih _ h hrest

/-- The relay pass succeeds when every neighbor has a peer record and
every processed non-server id has a table key. -/
theorem addRelayRoutes_ok (peers : List (String × Peer)) (sid : String)
    (nbrs ids : List String) (rt : RoutingTable)
    (hnb : ∀ n ∈ nbrs, (alookup peers n).isSome = true)
    (hids : ∀ k ∈ ids, k ≠ sid → (alookup rt k).isSome = true) :
    ∃ rt1, addRelayRoutes peers sid nbrs ids rt = .ok rt1 := by
  induction ids generalizing rt with
  | nil => exact ⟨rt, rfl⟩
  | cons pid rest ih =>
      have htail : ∀ rt1 : RoutingTable,
          (∀ k ∈ rest, k ≠ sid → (alookup rt1 k).isSome = true) →
          ∃ rt2, addRelayRoutes peers sid nbrs rest rt1 = .ok rt2 := fun rt1 h1 => ih rt1 h1
      rw [addRelayRoutes]
      by_cases hg : pid ≠ sid ∧ pid ∉ nbrs
      · rw [if_pos hg]
        cases hf : firstOnlineRelay peers nbrs with
        | none =>
            have hrf : relayFold peers none nbrs = .ok none := by
              rw [relayFold_none_eq peers nbrs hnb, hf]
              rfl
            simp only [hrf]
            exact htail _ fun k hm hks => hids k (List.mem_cons_of_mem pid hm) hks
        | some n =>
            have hrf : relayFold peers none nbrs = .ok (some (n, 2)) := by
              rw [relayFold_none_eq peers nbrs hnb, hf]
              rfl
            simp only [hrf]
            by_cases hne : n = ""
            · simp only [hne, if_pos rfl]
              exact htail _ fun k hm hks => hids k (List.mem_cons_of_mem pid hm) hks
            · rw [if_neg (by simpa using hne)]
              obtain ⟨inner, hinner⟩ := Option.isSome_iff_exists.mp
                (hids pid (List.mem_cons_self pid rest) hg.1)
              simp only [hinner]
              refine htail _ ?_
              intro k hm hks
              rw [alookup_aset]
              by_cases hpk : pid = k
              · simp [hpk]
              · simp [hpk, hids k (List.mem_cons_of_mem pid hm) hks]
      · rw [if_neg hg]
        exact htail _ fun k hm hks => hids k (List.mem_cons_of_mem pid hm) hks

/-- `_update_routing_table` runs to completion (no `KeyError`) whenever
the server has a peer record and all its neighbors are registered peers
other than the server. -/
theorem computeRoutingTable_ok (peers : List (String × Peer)) (sid : String)
    (rt : RoutingTable) (sp : Peer) (hsp : alookup peers sid = some sp)
    (hnb : ∀ n ∈ sp.neighbors, n ≠ sid ∧ (alookup peers n).isSome = true) :
    ∃ rt2, computeRoutingTable peers sid rt = .ok rt2 := by
  have hids : ∀ k, (alookup peers k).isSome = true → k ∈ peers.map Prod.fst :=
    fun k hk => (alookup_isSome_iff peers k).mp hk
  have h1 : ∀ n ∈ sp.neighbors, (alookup peers n).isSome = true ∧
      (alookup (initRT sid (peers.map Prod.fst) rt) n).isSome = true := by
    intro n hn
    obtain ⟨hne, hps⟩ := hnb n hn
    refine ⟨hps, ?_⟩
    rw [initRT_lookup_mem sid _ rt n (hids n hps) hne]
    rfl
  obtain ⟨rt2a, h2⟩ := addNeighborRoutes_ok peers sp.neighbors _ h1
  have h3 : ∀ k ∈ peers.map Prod.fst, k ≠ sid → (alookup rt2a k).isSome = true := by
    intro k hk hks
    refine addNeighborRoutes_preserves_isSome peers sp.neighbors _ rt2a k h2 ?_
    rw [initRT_lookup_mem sid _ rt k hk hks]
    rfl
  obtain ⟨rt3, h4⟩ := addRelayRoutes_ok peers sid sp.neighbors (peers.map Prod.fst) rt2a
    (fun n hn => (hnb n hn).2) h3
  refine ⟨rt3, ?_⟩
  simp only [computeRoutingTable, hsp, h2]
  exact h4

/-! C7 — `unregister_peer`. -/

/-- C7 (confirmed): on a well-formed registry, unregistering an unknown id
returns `false` and changes nothing; unregistering a known id marks the
peer offline with `last_seen` refreshed, recomputes the routing table,
returns `true` — and neither case raises. -/
theorem unregister_peer_spec (s : ServerState) (pid : String) (now : Nat)
    (hwf : WFb s = true) :
    (alookup s.peers pid = none → unregister_peer s pid now = .ok (s, false)) ∧
    (∀ p, alookup s.peers pid = some p →
      ∃ s1, unregister_peer s pid now = .ok (s1, true) ∧
        s1.peers = aset s.peers pid { p with is_online := false, last_seen := now } ∧
        s1.messages = s.messages ∧ s1.message_queue = s.message_queue ∧
        s1.server_id = s.server_id ∧ s1.running = s.running ∧
        computeRoutingTable s1.peers s.server_id s.routing_table
          = .ok s1.routing_table) := by
  constructor
  · intro h
    rw [unregister_peer]
    simp only [h]
  · intro p hp
    have hsp0 : (alookup s.peers s.server_id).isSome = true := by
      rw [WFb] at hwf
      split at hwf
      · rename_i sp hsp
        rw [hsp]
        rfl
      · simp at hwf
    obtain ⟨sp, hsp⟩ := Option.isSome_iff_exists.mp hsp0
    have hnb : ∀ n ∈ sp.neighbors, n ≠ s.server_id ∧
        (alookup s.peers n).isSome = true := by
      rw [WFb, hsp] at hwf
      intro n hn
      have hn2 := (List.all_eq_true.mp hwf) n hn
      simp only [Bool.and_eq_true] at hn2
      exact ⟨by simpa using hn2.1, hn2.2⟩
    have key : ∃ sp2, alookup
        (aset s.peers pid { p with is_online := false, last_seen := now }) s.server_id
          = some sp2 ∧ sp2.neighbors = sp.neighbors := by
      rw [alookup_aset]
      by_cases hps : pid = s.server_id
      · rw [if_pos hps]
        have hpe : p = sp := by
          rw [hps] at hp
          rw [hp] at hsp
          injection hsp
        refine ⟨_, rfl, ?_⟩
        rw [hpe]
      · rw [if_neg hps]
        exact ⟨sp, hsp, rfl⟩
    obtain ⟨sp2, hsp2, hnbeq⟩ := key
    have hnb2 : ∀ n ∈ sp2.neighbors, n ≠ s.server_id ∧
        (alookup (aset s.peers pid
          { p with is_online := false, last_seen := now }) n).isSome = true := by
      intro n hn
      rw [hnbeq] at hn
      obtain ⟨h1, h2⟩ := hnb n hn
      refine ⟨h1, ?_⟩
      rw [alookup_aset]
      by_cases hpn : pid = n
      · simp [hpn]
      · simp [hpn, h2]
    obtain ⟨rt2, hok⟩ :=
      computeRoutingTable_ok _ s.server_id s.routing_table sp2 hsp2 hnb2
    have hupd : updateRoutingTable
        { s with peers := aset s.peers pid { p with is_online := false, last_seen := now } }
        = .ok { s with
            peers := aset s.peers pid { p with is_online := false, last_seen := now }
            routing_table := rt2 } := by
      simp only [updateRoutingTable]
      simp only [hok]
    refine ⟨{ s with
        peers := aset s.peers pid { p with is_online := false, last_seen := now },
        routing_table := rt2 }, ?_, rfl, rfl, rfl, rfl, rfl, ?_⟩
    · rw [unregister_peer]
      simp only [hp, hupd]
    · simpa using hok

/-- Fixture: the result of unregistering the unknown id is `stNoNbr`
itself; for the witness we check the no-op branch and the well-formedness
check concretely. -/
theorem unregister_peer_spec_witness :
    WFb stNoNbr = true ∧ unregister_peer stNoNbr "zz" 9 = .ok (stNoNbr, false) :=
  ⟨by decide, (unregister_peer_spec stNoNbr "zz" 9 (by decide)).1 rfl⟩

/-! C2 — routing-table domain after recomputation. -/

/-- C2 counterexample: the claim says a peer with no viable path is absent
from the recomputed table.  But the offline, pathless peer `"p"` is
present — with an empty candidate map — after recomputation. -/
theorem updateRoutingTable_empty_entry_cex :
    (alookup stNoNbr.peers "p").isSome = true ∧
    peerPoff.is_online = false ∧
    updateRoutingTable stNoNbr = .ok stNoNbrAfter ∧
    stNoNbrAfter.routing_table = [("p", [])] :=
  ⟨rfl, rfl, rfl, rfl⟩

/-- C2 (amended): after every recomputation, every known peer other than
the server has an entry in the routing table — peers with no viable path
keep a (possibly empty) candidate map instead of being absent. -/
theorem updateRoutingTable_total_domain (s s1 : ServerState)
    (h : updateRoutingTable s = .ok s1) (pid : String)
    (hmem : pid ∈ s.peers.map Prod.fst) (hpid : pid ≠ s.server_id) :
    (alookup s1.routing_table pid).isSome = true := by
  rw [updateRoutingTable] at h
  split at h
  · simp at h
  · rename_i rt2 hok
    simp only [Except.ok.injEq] at h
    subst h
    simp only
    simp only [computeRoutingTable] at hok
    split at hok
    · simp at hok
    · rename_i sp hsp
      split at hok
      · simp at hok
      · rename_i rt2a h2
        have hinit : (alookup (initRT s.server_id (s.peers.map Prod.fst)
            s.routing_table) pid).isSome = true := by
          rw [initRT_lookup_mem _ _ _ pid hmem hpid]
          rfl
        have h2s := addNeighborRoutes_preserves_isSome _ _ _ _ pid h2 hinit
        exact addRelayRoutes_preserves_isSome _ _ _ _ _ _ pid hok h2s

/-- C2 witness: the pathless peer `"p"` does have an entry after the
recomputation on `stNoNbr`. -/
theorem updateRoutingTable_total_domain_witness :
    (alookup stNoNbrAfter.routing_table "p").isSome = true :=
  updateRoutingTable_total_domain stNoNbr stNoNbrAfter rfl "p" (by decide) (by decide)

/-! C3 — cost-2 relay entries. -/

/-- The relay pass writes, for a processed id that is neither the server
nor a neighbor and starts from the empty candidate map, exactly the entry
for the first online neighbor at cost 2 (nothing when no neighbor is
online or the relay id is the falsy empty string). -/
theorem addRelayRoutes_lookup_target (peers : List (String × Peer)) (sid : String)
    (nbrs ids : List String) (rt rt1 : RoutingTable) (pid : String)
    (hnd : ids.Nodup) (hmem : pid ∈ ids) (hpid : pid ≠ sid) (hnn : pid ∉ nbrs)
    (hnb : ∀ n ∈ nbrs, (alookup peers n).isSome = true)
    (hrt : alookup rt pid = some [])
    (h : addRelayRoutes peers sid nbrs ids rt = .ok rt1) :
    alookup rt1 pid
      = some (match firstOnlineRelay peers nbrs with
              | some n => if n = "" then [] else [(n, 2)]
              | none => []) := by
  induction ids generalizing rt with
  | nil => simp at hmem
  | cons k rest ih =>
      rw [addRelayRoutes] at h
      by_cases hkp : k = pid
      · subst hkp
        have hrest : k ∉ rest := (List.nodup_cons.mp hnd).1
        rw [if_pos ⟨hpid, hnn⟩] at h
        cases hf : firstOnlineRelay peers nbrs with
        | none =>
            have hrf : relayFold peers none nbrs = .ok none := by
              rw [relayFold_none_eq peers nbrs hnb, hf]
              rfl
            simp only [hrf] at h
            rw [addRelayRoutes_lookup_notin _ _ _ _ _ _ k h hrest, hrt]
        | some n =>
            have hrf : relayFold peers none nbrs = .ok (some (n, 2)) := by
              rw [relayFold_none_eq peers nbrs hnb, hf]
              rfl
            simp only [hrf] at h
            by_cases hne : n = ""
            · rw [if_pos (by simpa using hne)] at h
              rw [addRelayRoutes_lookup_notin _ _ _ _ _ _ k h hrest, hrt]
              simp [hne]
            · rw [if_neg (by simpa using hne)] at h
              simp only [hrt] at h
              rw [addRelayRoutes_lookup_notin _ _ _ _ _ _ k h hrest]
              rw [alookup_aset, if_pos rfl]
              simp [hne, aset]
      · have hmem2 : pid ∈ rest := by
          rcases List.mem_cons.mp hmem with he | hm
          · exact absurd he.symm hkp
          · exact hm
        have hnd2 := (List.nodup_cons.mp hnd).2
        split at h
        · split at h
          · simp at h
          · exact ih rt hnd2 hmem2 hrt h
          · split at h
            · exact ih rt hnd2 hmem2 hrt h
            · split at h
              · simp at h
              · refine ih _ hnd2 hmem2 ?_ h
                rw [alookup_aset, if_neg hkp]
                exact hrt
        · exact ih rt hnd2 hmem2 hrt h

/-- C3 counterexample: the claim says a cost-2 entry is created only for
online non-neighbor peers.  But `"p"` is offline (and not a neighbor),
and the recomputation on `stWithNbr` still gives it the relay entry
`("n", 2)` — the destination's online flag is never consulted. -/
theorem relay_for_offline_peer_cex :
    alookup stWithNbr.peers "p" = some peerPoff ∧ peerPoff.is_online = false ∧
    "p" ∉ peerSrvN.neighbors ∧
    updateRoutingTable stWithNbr = .ok stWithNbrAfter ∧
    alookup stWithNbrAfter.routing_table "p" = some [("n", 2)] :=
  ⟨rfl, rfl, by decide, rfl, rfl⟩

/-- C3 (amended): the recomputation creates a cost-2 entry for every
known peer that is neither the server nor one of its direct neighbors,
online or offline alike: the candidate map becomes exactly
`\x7bfirst online neighbor: 2\x7d` when the server has an online neighbor
(with a nonempty id), and stays empty otherwise. -/
theorem updateRoutingTable_relay_characterization (s s1 : ServerState)
    (pid : String) (sp : Peer)
    (hnd : (s.peers.map Prod.fst).Nodup)
    (hsp : alookup s.peers s.server_id = some sp)
    (hmem : pid ∈ s.peers.map Prod.fst) (hpid : pid ≠ s.server_id)
    (hnn : pid ∉ sp.neighbors)
    (hnb : ∀ n ∈ sp.neighbors, (alookup s.peers n).isSome = true)
    (h : updateRoutingTable s = .ok s1) :
    alookup s1.routing_table pid
      = some (match firstOnlineRelay s.peers sp.neighbors with
              | some n => if n = "" then [] else [(n, 2)]
              | none => []) := by
  rw [updateRoutingTable] at h
  split at h
  · simp at h
  · rename_i rt2 hok
    simp only [Except.ok.injEq] at h
    subst h
    simp only
    simp only [computeRoutingTable, hsp] at hok
    split at hok
    · simp at hok
    · rename_i rt2a h2
      have hinit : alookup (initRT s.server_id (s.peers.map Prod.fst)
          s.routing_table) pid = some [] :=
        initRT_lookup_mem _ _ _ pid hmem hpid
      have h2eq : alookup rt2a pid = some [] := by
        rw [addNeighborRoutes_lookup_notin _ _ _ _ pid h2 hnn, hinit]
      exact addRelayRoutes_lookup_target _ _ _ _ _ _ pid hnd hmem hpid hnn hnb h2eq hok

/-- C3 witness: on `stWithNbr` the offline non-neighbor `"p"` receives
exactly the entry for the first online neighbor `"n"` at cost 2. -/
theorem updateRoutingTable_relay_characterization_witness :
    alookup stWithNbrAfter.routing_table "p" = some [("n", 2)] :=
  updateRoutingTable_relay_characterization stWithNbr stWithNbrAfter "p" peerSrvN
    (by decide) rfl (by decide) (by decide) (by decide) (by decide) rfl

/-! C10 — neighbor sets are never populated. -/

/-- The inductive invariant: the server has a peer record, every peer's
neighbor set is empty, and every routing-table entry has an empty
candidate map. -/
def NbrInv (s : ServerState) : Prop :=
  (alookup s.peers s.server_id).isSome = true ∧
  (∀ kp ∈ s.peers, kp.2.neighbors = ([] : List String)) ∧
  (∀ km ∈ s.routing_table, km.2 = ([] : CandMap))

/-- The reset pass keeps every candidate map empty. -/
theorem initRT_values (sid : String) (ids : List String) (rt : RoutingTable)
    (h : ∀ km ∈ rt, km.2 = ([] : CandMap)) :
    ∀ km ∈ initRT sid ids rt, km.2 = ([] : CandMap) := by
  induction ids generalizing rt with
  | nil => exact h
  | cons k rest ih =>
      rw [initRT]
      split
      · exact ih rt h
      · refine ih _ ?_
        intro km hkm
        rcases mem_aset rt k [] km hkm with he | hm
        · rw [he]
        · exact h km hm

/-- With no neighbors the relay pass writes nothing. -/
theorem addRelayRoutes_nil_nbrs (peers : List (String × Peer)) (sid : String)
    (ids : List String) (rt : RoutingTable) :
    addRelayRoutes peers sid [] ids rt = .ok rt := by
  induction ids generalizing rt with
  | nil => rfl
  | cons k rest ih =>
      rw [addRelayRoutes]
      by_cases hg : k ≠ sid ∧ k ∉ ([] : List String)
      · rw [if_pos hg]
        exact ih rt
      · rw [if_neg hg]
        exact ih rt

/-- With no neighbors the recomputation is exactly the reset pass. -/
theorem computeRoutingTable_empty_nbrs (peers : List (String × Peer)) (sid : String)
    (rt : RoutingTable) (sp : Peer) (hsp : alookup peers sid = some sp)
    (hnb : sp.neighbors = []) :
    computeRoutingTable peers sid rt
      = .ok (initRT sid (peers.map Prod.fst) rt) := by
  simp only [computeRoutingTable, hsp, hnb, addNeighborRoutes]
  exact addRelayRoutes_nil_nbrs _ _ _ _

/-- The recomputation preserves the invariant. -/
theorem updateRoutingTable_inv (s s1 : ServerState) (hinv : NbrInv s)
    (h : updateRoutingTable s = .ok s1) : NbrInv s1 := by
  obtain ⟨h1, h2, h3⟩ := hinv
  obtain ⟨sp, hsp⟩ := Option.isSome_iff_exists.mp h1
  have hnbe : sp.neighbors = [] := h2 (s.server_id, sp) (alookup_mem _ _ _ hsp)
  have hcrt := computeRoutingTable_empty_nbrs s.peers s.server_id s.routing_table sp hsp hnbe
  rw [updateRoutingTable] at h
  simp only [hcrt] at h
  simp only [Except.ok.injEq] at h
  subst h
  exact ⟨h1, h2, initRT_values _ _ _ h3⟩

/-- A normal processor drain changes neither the peer registry nor the
routing table. -/
theorem drainStep_frame (s s1 : ServerState) (ackId : String) (now : Nat)
    (evs : List RouteEffect) (h : drainStep s ackId now = .ok (s1, evs)) :
    s1.peers = s.peers ∧ s1.routing_table = s.routing_table ∧
    s1.server_id = s.server_id := by
  rw [drainStep] at h
  split at h
  · simp only [Except.ok.injEq, Prod.mk.injEq] at h
    rw [← h.1]
    exact ⟨rfl, rfl, rfl⟩
  · split at h
    · simp at h
    · simp only [Except.ok.injEq, Prod.mk.injEq] at h
      rw [← h.1]
      exact ⟨rfl, rfl, rfl⟩

/-- The monitor sweep preserves the invariant. -/
theorem monitorFold_inv (sid : String) (now : Nat) (ids : List String)
    (s s1 : ServerState) (hinv : NbrInv s) (h : monitorFold sid now ids s = .ok s1) :
    NbrInv s1 := by
  induction ids generalizing s with
  | nil =>
      simp only [monitorFold, Except.ok.injEq] at h
      subst h
      exact hinv
  | cons pid rest ih =>
      rw [monitorFold] at h
      split at h
      · exact ih s hinv h
      · rename_i p hp
        split at h
        · split at h
          · split at h
            · simp at h
            · rename_i s2 heq
              refine ih s2 ?_ h
              refine updateRoutingTable_inv _ _ ?_ heq
              obtain ⟨h1, h2, h3⟩ := hinv
              refine ⟨?_, ?_, h3⟩
              · simp only
                rw [alookup_aset]
                by_cases hps : pid = s.server_id
                · simp [hps]
                · simp [hps, h1]
              · intro kp hkp
                simp only at hkp
                rcases mem_aset _ _ _ kp hkp with he | hm
                · rw [he]
                  exact h2 (pid, p) (alookup_mem _ _ _ hp)
                · exact h2 kp hm
          · exact ih s hinv h
        · exact ih s hinv h

/-- Every facade operation and every background-loop iteration preserves
the invariant. -/
theorem stepPreservesNbrInv (s s1 : ServerState) (hinv : NbrInv s)
    (h : Step s s1) : NbrInv s1 := by
  obtain ⟨h1, h2, h3⟩ := hinv
  cases h with
  | register pid pname addr discId now =>
      cases hlp : alookup s.peers pid with
      | some p =>
          simp only [register_peer, hlp, broadcast_peer_discovery]
          refine ⟨?_, ?_, h3⟩
          · simp only
            rw [alookup_aset]
            by_cases hps : pid = s.server_id
            · simp [hps]
            · simp [hps, h1]
          · intro kp hkp
            simp only at hkp
            rcases mem_aset _ _ _ kp hkp with he | hm
            · rw [he]
              exact h2 (pid, p) (alookup_mem _ _ _ hlp)
            · exact h2 kp hm
      | none =>
          simp only [register_peer, hlp, broadcast_peer_discovery]
          refine ⟨?_, ?_, h3⟩
          · simp only
            rw [alookup_aset]
            by_cases hps : pid = s.server_id
            · simp [hps]
            · simp [hps, h1]
          · intro kp hkp
            simp only at hkp
            rcases mem_aset _ _ _ kp hkp with he | hm
            · rw [he]
            · exact h2 kp hm
  | unregister s2 pid now2 b2 hu =>
      rw [unregister_peer] at hu
      split at hu
      · rename_i p hp
        dsimp only at hu
        split at hu
        · simp at hu
        · rename_i s2 heq
          simp only [Except.ok.injEq, Prod.mk.injEq] at hu
          rw [← hu.1]
          refine updateRoutingTable_inv _ _ ?_ heq
          refine ⟨?_, ?_, h3⟩
          · simp only
            rw [alookup_aset]
            by_cases hps : pid = s.server_id
            · simp [hps]
            · simp [hps, h1]
          · intro kp hkp
            simp only at hkp
            rcases mem_aset _ _ _ kp hkp with he | hm
            · rw [he]
              exact h2 (pid, p) (alookup_mem _ _ _ hp)
            · exact h2 kp hm
      · simp only [Except.ok.injEq, Prod.mk.injEq] at hu
        rw [← hu.1]
        exact ⟨h1, h2, h3⟩
  | send sender rcpt content msgId now => exact ⟨h1, h2, h3⟩
  | broadcast sender content msgId now => exact ⟨h1, h2, h3⟩
  | drain s2 ackId2 now2 evs2 hd =>
      obtain ⟨hp, hr, hs⟩ := drainStep_frame _ _ _ _ _ hd
      refine ⟨?_, ?_, ?_⟩
      · rw [hp, hs]
        exact h1
      · rw [hp]
        exact h2
      · rw [hr]
        exact h3
  | drainError msg rest ackId now e hq he => exact ⟨h1, h2, h3⟩
  | monitor s2 now2 hm => exact monitorFold_inv _ _ _ _ _ ⟨h1, h2, h3⟩ hm
  | routeUpdate s2 hu => exact updateRoutingTable_inv _ _ ⟨h1, h2, h3⟩ hu
  | startServer => exact ⟨h1, h2, h3⟩
  | stopServer => exact ⟨h1, h2, h3⟩

/-- Under the invariant a broadcast reaches zero neighbors. -/
theorem broadcast_to_neighbors_empty (s : ServerState) (hinv : NbrInv s)
    (m : Message) : broadcast_to_neighbors s m = .ok (m, []) := by
  obtain ⟨h1, h2, _⟩ := hinv
  obtain ⟨sp, hsp⟩ := Option.isSome_iff_exists.mp h1
  have hnb : sp.neighbors = [] := h2 (s.server_id, sp) (alookup_mem _ _ _ hsp)
  rw [broadcast_to_neighbors]
  simp only [hsp, hnb]
  rfl

/-- The freshly constructed node satisfies the invariant. -/
theorem initState_inv (sid sname : String) (now : Nat) :
    NbrInv (initState sid sname now) := by
  refine ⟨?_, ?_, ?_⟩
  · simp [initState, alookup]
  · intro kp hkp
    simp only [initState, List.mem_singleton] at hkp
    rw [hkp]
  · intro km hkm
    simp [initState] at hkm

/-- C10 (confirmed): in every state reachable from node construction via
the facade operations and the background loops, every peer's neighbor set
is empty — no operation ever adds a neighbor — so every recomputed
routing table holds only empty candidate maps and a broadcast is
forwarded to zero peers. -/
theorem reachable_neighbors_empty (sid sname : String) (now0 : Nat)
    (s : ServerState) (h : Reachable (initState sid sname now0) s) :
    (∀ kp ∈ s.peers, kp.2.neighbors = ([] : List String)) ∧
    (∀ km ∈ s.routing_table, km.2 = ([] : CandMap)) ∧
    (∀ m : Message, broadcast_to_neighbors s m = .ok (m, [])) := by
  have hinv : NbrInv s := by
    have h2 : Relation.ReflTransGen Step (initState sid sname now0) s := h
    clear h
    induction h2 with
    | refl => exact initState_inv sid sname now0
    | tail hpre hstep ih => exact stepPreservesNbrInv _ _ ih hstep
  exact ⟨hinv.2.1, hinv.2.2, fun m => broadcast_to_neighbors_empty s hinv m⟩

/-- C10 witness: after registering a peer on a fresh node, a broadcast is
forwarded to zero peers. -/
theorem reachable_neighbors_empty_witness :
    broadcast_to_neighbors
      (register_peer (initState "s" "srv" 0) "p1" "Alice" "a1" "d1" 5).1
      msgSysToSrv = .ok (msgSysToSrv, []) :=
  (reachable_neighbors_empty "s" "srv" 0 _
    (Relation.ReflTransGen.single
      (Step.register (initState "s" "srv" 0) "p1" "Alice" "a1" "d1" 5))).2.2 msgSysToSrv

end Mesh
